import Mathlib

/-!
Shallow embedding of the mjkit rules-evaluation core (src/tile.rs,
src/hand.rs, src/hand/yaku.rs).  Rust panics are modelled by `Option`
(`none` = panic); `u8` is modelled by `Nat` with explicit range
hypotheses where the claim needs them.
-/

namespace Mjkit

/-- The three suits of numbered tiles (tile.rs `Suit`). -/
inductive Suit
  | Manzu
  | Souzu
  | Pinzu
deriving DecidableEq

/-- The four cardinal directions (tile.rs `Direction`). -/
inductive Direction
  | East
  | South
  | West
  | North
deriving DecidableEq

/-- tile.rs `Direction::next`: the next direction around the table, looping. -/
def Direction.next : Direction → Direction
  | .East => .South
  | .South => .West
  | .West => .North
  | .North => .East

/-- The three colours of dragon tiles (tile.rs `Dragon`). -/
inductive Dragon
  | White
  | Green
  | Red
deriving DecidableEq

/-- tile.rs `Dragon::next`: the next dragon tile in order, looping. -/
def Dragon.next : Dragon → Dragon
  | .White => .Green
  | .Green => .Red
  | .Red => .White

/-- tile.rs `Val`: the value of a suited tile, a newtype over `u8`.
The Rust field is private but internally unconstrained, so the model
carries a bare `Nat`. -/
structure Val where
  val : Nat
deriving DecidableEq

/-- tile.rs `Val::new`: panics unless `1 <= n <= 9`.  `none` models the
panic. -/
def Val.new (n : Nat) : Option Val :=
  if 1 ≤ n ∧ n ≤ 9 then some ⟨n⟩ else none

/-- tile.rs `Tile`: a single mahjong tile. -/
inductive Tile
  | Suited (s : Suit) (v : Val)
  | Wind (w : Direction)
  | Dragon (d : Dragon)
deriving DecidableEq

/-- tile.rs `Tile::indicated_dora`: the tile this tile indicates as dora. -/
def Tile.indicated_dora : Tile → Tile
  | .Suited s ⟨9⟩ => .Suited s ⟨1⟩
  | .Suited s ⟨n⟩ => .Suited s ⟨n + 1⟩
  | .Wind w => .Wind w.next
  | .Dragon d => .Dragon d.next

/-- tile.rs `Tile::val`: the value of a suited tile, `None` otherwise. -/
def Tile.val : Tile → Option Val
  | .Suited _ v => some v
  | _ => none

/-- tile.rs `AllTiles::next`'s state update: given the tile about to be
yielded, the state stored for the next call (`none` ends the iteration).
The match arms are in source order, the last one catching everything the
earlier ones do not. -/
def allTilesStep : Tile → Option Tile
  | .Suited .Manzu ⟨9⟩ => some (.Suited .Souzu ⟨1⟩)
  | .Suited .Souzu ⟨9⟩ => some (.Suited .Pinzu ⟨9⟩)
  | .Suited .Pinzu ⟨9⟩ => some (.Wind .East)
  | .Wind .North => some (.Dragon .White)
  | .Dragon .Red => none
  | t => some t.indicated_dora

/-- The list of tiles yielded by repeatedly calling `AllTiles::next`,
with a fuel bound (the iterator itself runs until its state is `None`;
`allTilesRun_fuel_stable` below checks the fuel is not the stopping
reason). -/
def allTilesRun : Nat → Option Tile → List Tile
  | 0, _ => []
  | _, none => []
  | fuel + 1, some t => t :: allTilesRun fuel (allTilesStep t)

/-- tile.rs `Tile::all`: the full traversal of the iterator starting
from `Suited(Manzu, Val(1))`. -/
def Tile.all : List Tile :=
  allTilesRun 40 (some (.Suited .Manzu ⟨1⟩))

/-- The seating positions of a player's opponents (hand.rs `Opponent`). -/
inductive Opponent
  | Right
  | Across
  | Left
deriving DecidableEq

/-- A location from which a tile can come (hand.rs `Location`). -/
inductive Location
  | LiveWall
  | DeadWall
  | Discard (o : Opponent)
  | Kan (o : Opponent)
deriving DecidableEq

/-- hand.rs `WinContext`: the circumstances surrounding a winning hand. -/
structure WinContext where
  agari : Tile
  source : Location
  riichi : Bool
  first_turn : Bool
  wall_empty : Bool
  round : Direction
  seat : Direction
  honba : Nat
deriving DecidableEq

/-- hand.rs `GroupType`: the kinds of group which can be formed. -/
inductive GroupType
  | Sequence
  | Triplet
  | Quad
deriving DecidableEq

/-- hand.rs `Wait`: the kinds of wait that a normal hand can have. -/
inductive Wait
  | Ryanmen
  | Kanchan
  | Penchan
  | Shanpon
  | Tanki
deriving DecidableEq

/-- hand.rs `Group`: a group of tiles in a player's hand. -/
structure Group where
  tiles : List Tile
  off : Option Opponent
  added : Bool
  agari : Bool
deriving DecidableEq

/-- hand.rs `Group::is_open` as written: returns `self.off.is_none()`. -/
def Group.is_open (g : Group) : Bool :=
  g.off.isNone

/-- hand.rs `Group::has_agari`. -/
def Group.has_agari (g : Group) : Bool :=
  g.agari

/-- hand.rs `Group::ty`: derives the group type from the tiles.  The Rust
body indexes `tiles[0]` and `tiles[1]`, which panics on groups of fewer
than two tiles; `none` models that panic. -/
def Group.ty (g : Group) : Option GroupType :=
  if g.tiles.length = 4 then some .Quad
  else
    match g.tiles[0]?, g.tiles[1]? with
    | some t0, some t1 => some (if t0 = t1 then .Triplet else .Sequence)
    | _, _ => none

/-- The index ranking the `Suit` variants in Rust's derived `Ord`. -/
def Suit.idx : Suit → Nat
  | .Manzu => 0
  | .Souzu => 1
  | .Pinzu => 2

/-- The index ranking the `Direction` variants in Rust's derived `Ord`. -/
def Direction.idx : Direction → Nat
  | .East => 0
  | .South => 1
  | .West => 2
  | .North => 3

/-- The index ranking the `Dragon` variants in Rust's derived `Ord`. -/
def Dragon.idx : Dragon → Nat
  | .White => 0
  | .Green => 1
  | .Red => 2

/-- The index ranking the `Tile` constructors in Rust's derived `Ord`. -/
def Tile.kindIdx : Tile → Nat
  | .Suited .. => 0
  | .Wind _ => 1
  | .Dragon _ => 2

/-- Rust's derived total order on `Tile`: constructor order first, then
fields lexicographically. -/
def Tile.le (a b : Tile) : Bool :=
  match a, b with
  | .Suited s1 v1, .Suited s2 v2 =>
      decide (s1.idx < s2.idx ∨ (s1.idx = s2.idx ∧ v1.val ≤ v2.val))
  | .Wind w1, .Wind w2 => decide (w1.idx ≤ w2.idx)
  | .Dragon d1, .Dragon d2 => decide (d1.idx ≤ d2.idx)
  | x, y => decide (x.kindIdx < y.kindIdx)

/-- Insertion step of the sort used to model `Vec::sort` on tiles. -/
def insertTile (x : Tile) : List Tile → List Tile
  | [] => [x]
  | y :: ys => if Tile.le x y then x :: y :: ys else y :: insertTile x ys

/-- `Vec::sort` on tiles.  Equal tiles are structurally identical, so the
sorted output is the unique sorted permutation and the choice of sorting
algorithm is immaterial. -/
def sortTiles : List Tile → List Tile
  | [] => []
  | x :: xs => insertTile x (sortTiles xs)

/-- `Iterator::position`: the 0-based index of the first element
satisfying the predicate. -/
def position (p : Tile → Bool) : List Tile → Option Nat
  | [] => none
  | x :: xs => if p x then some 0 else (position p xs).map (· + 1)

/-- hand.rs `Group::wait` as written: `none` models a panic (an index or
unwrap failure), `some none` models the Rust return value `None`, and
`some (some w)` models `Some(w)`. -/
def Group.wait (g : Group) : Option (Option Wait) :=
  if g.agari = false then some none
  else
    match g.ty with
    | none => none
    | some t =>
      if t ≠ GroupType.Sequence then some (some .Shanpon)
      else
        match g.tiles[2]? with
        | none => none
        | some ag =>
          match ag.val with
          | none => none
          | some v =>
            match position (fun t => t == ag) (sortTiles g.tiles) with
            | none => none
            | some pos =>
              some (some (
                if pos = 2 then .Kanchan
                else if (pos = 1 ∧ v.val = 7) ∨ (pos = 3 ∧ v.val = 3) then
                  .Penchan
                else .Ryanmen))

/-- hand.rs `CompleteHand`: a complete winning hand of fourteen tiles.
The Rust fixed-size arrays are modelled by lists with a length
invariant. -/
inductive CompleteHand
  | Kokushi (tiles : { l : List Tile // l.length = 14 })
  | SevenPairs (pairs : { l : List (Tile × Tile) // l.length = 7 })
  | Standard (groups : { l : List Group // l.length = 4 }) (pair : Tile × Tile)
deriving DecidableEq

namespace yaku

/-- yaku.rs `Val`: the value of a yaku. -/
inductive Val
  | Han (n : Nat)
  | Mangan
  | Yakuman
  | DoubleYakuman
deriving DecidableEq

/-- yaku.rs `OpenVal`: the value of a yaku in an open hand. -/
inductive OpenVal
  | Full
  | Reduced
  | Invalid
deriving DecidableEq

/-- yaku.rs `Yaku`: a yaku record. -/
structure Yaku where
  kanji : String
  romaji : String
  english : String
  val : Val
  open_val : OpenVal
  in_hand : CompleteHand → WinContext → Bool

/-- yaku.rs `KOKUSHI`: the Thirteen Orphans yaku. -/
def KOKUSHI : Yaku where
  kanji := ""
  romaji := "kokushimusō"
  english := "Thirteen Orphans"
  val := .Yakuman
  open_val := .Invalid
  in_hand := fun h _ =>
    match h with
    | .Kokushi _ => true
    | _ => false

/-- yaku.rs `KOKUSHI_13`: the Thirteen-Sided Thirteen Orphans yaku; its
decision counts the hand tiles equal to the winning tile. -/
def KOKUSHI_13 : Yaku where
  kanji := ""
  romaji := "kokushimusōjūsanmen"
  english := "Thirteen-Sided Thirteen Orphans"
  val := .DoubleYakuman
  open_val := .Invalid
  in_hand := fun h c =>
    match h with
    | .Kokushi tiles => (tiles.val.filter (fun t => t == c.agari)).length == 2
    | _ => false

end yaku

/-- Transcribed from the spec's wait table (§4.2), for comparison with
`Group.wait`: sort the three tiles ascending, let `pos` be the 0-based
index of the winning tile within that sorted order and `v` its numeric
value; classify `Kanchan` when `pos == 2`, `Penchan` when
`(pos == 1 ∧ v == 7) ∨ (pos == 3 ∧ v == 3)`, `Ryanmen` otherwise. -/
def specSeqWait (ts : List Tile) (winning : Tile) (v : Nat) : Wait :=
  let sorted := sortTiles ts
  let pos := (position (fun t => t == winning) sorted).getD sorted.length
  if pos = 2 then .Kanchan
  else if (pos = 1 ∧ v = 7) ∨ (pos = 3 ∧ v = 3) then .Penchan
  else .Ryanmen

/-- Well-formedness of a group, as the producers are documented to
guarantee it: three or four tiles, and a three-tile agari group whose
first two tiles differ (hence classified a sequence) is a run of suited
tiles of one suit with consecutive values. -/
def Group.wf (g : Group) : Prop :=
  (g.tiles.length = 3 ∨ g.tiles.length = 4) ∧
  ∀ a b c, g.agari = true → g.tiles = [a, b, c] → a ≠ b →
    ∃ s v1 v2 v3, sortTiles g.tiles =
      [Tile.Suited s v1, .Suited s v2, .Suited s v3] ∧
      v2.val = v1.val + 1 ∧ v3.val = v2.val + 1

/-- A concrete Thirteen Orphans tile multiset: each of the thirteen
terminal/honour kinds once, with the Red Dragon duplicated. -/
def kokushiExampleTiles : List Tile :=
  [.Suited .Manzu ⟨1⟩, .Suited .Manzu ⟨9⟩, .Suited .Souzu ⟨1⟩,
   .Suited .Souzu ⟨9⟩, .Suited .Pinzu ⟨1⟩, .Suited .Pinzu ⟨9⟩,
   .Wind .East, .Wind .South, .Wind .West, .Wind .North,
   .Dragon .White, .Dragon .Green, .Dragon .Red, .Dragon .Red]

/-- The concrete Kokushi hand built over `kokushiExampleTiles`. -/
def kokushiExampleHand : CompleteHand :=
  .Kokushi ⟨kokushiExampleTiles, rfl⟩

/-- A concrete win context with the given winning tile. -/
def exampleContext (t : Tile) : WinContext :=
  ⟨t, .LiveWall, false, false, false, .East, .East, 0⟩

theorem allTilesRun_fuel_stable :
    allTilesRun 40 (some (.Suited .Manzu ⟨1⟩)) =
      allTilesRun 100 (some (.Suited .Manzu ⟨1⟩)) := by
  decide

theorem mem_insertTile {x t : Tile} {l : List Tile} :
    t ∈ insertTile x l ↔ t = x ∨ t ∈ l := by
  induction l with
  | nil => simp [insertTile]
  | cons y ys ih =>
    simp only [insertTile]
    split
    · simp [List.mem_cons]
    · simp only [List.mem_cons, ih]
      tauto

theorem mem_sortTiles {t : Tile} {l : List Tile} :
    t ∈ sortTiles l ↔ t ∈ l := by
  induction l with
  | nil => simp [sortTiles]
  | cons y ys ih => simp [sortTiles, mem_insertTile, ih]

theorem position_eq_some_of_mem {p : Tile → Bool} {l : List Tile} {x : Tile}
    (hx : x ∈ l) (hp : p x = true) : ∃ i, position p l = some i := by
  induction l with
  | nil => cases hx
  | cons y ys ih =>
    by_cases hy : p y = true
    · exact ⟨0, by simp [position, hy]⟩
    · rcases List.mem_cons.mp hx with rfl | hx2
      · exact absurd hp hy
      · obtain ⟨i, hi⟩ := ih hx2
        exact ⟨i + 1, by simp [position, hy, hi]⟩

theorem wait_of_not_agari (g : Group) (hag : g.agari = false) :
    g.wait = some none := by
  simp [Group.wait, hag]

theorem wait_of_nonseq (g : Group) (t : GroupType) (hag : g.agari = true)
    (hty : g.ty = some t) (hts : t ≠ .Sequence) :
    g.wait = some (some .Shanpon) := by
  simp [Group.wait, hag, hty, hts]

theorem wait_of_seq (g : Group) (hag : g.agari = true)
    (hty : g.ty = some .Sequence) (s : Suit) (v : Val)
    (hc2 : g.tiles[2]? = some (.Suited s v)) (i : Nat)
    (hpos : position (fun t => t == Tile.Suited s v) (sortTiles g.tiles) =
      some i) :
    g.wait = some (some (
      if i = 2 then .Kanchan
      else if (i = 1 ∧ v.val = 7) ∨ (i = 3 ∧ v.val = 3) then .Penchan
      else .Ryanmen)) := by
  simp [Group.wait, hag, hty, hc2, hpos, Tile.val]

theorem wait_cases (g : Group) :
    (g.agari = false ∧ g.wait = some none) ∨
    (g.agari = true ∧ (g.wait = none ∨ g.wait = some (some .Shanpon) ∨
      ∃ i v, g.wait = some (some (
        if i = 2 then Wait.Kanchan
        else if (i = 1 ∧ v = 7) ∨ (i = 3 ∧ v = 3) then .Penchan
        else .Ryanmen)))) := by
  cases hag : g.agari with
  | false => exact Or.inl ⟨rfl, wait_of_not_agari g hag⟩
  | true =>
    refine Or.inr ⟨rfl, ?_⟩
    rcases hty : g.ty with _ | t
    · exact Or.inl (by simp [Group.wait, hag, hty])
    · by_cases hts : t = .Sequence
      · subst hts
        rcases hc : g.tiles[2]? with _ | c
        · exact Or.inl (by simp [Group.wait, hag, hty, hc])
        · rcases hv : c.val with _ | v
          · exact Or.inl (by simp [Group.wait, hag, hty, hc, hv])
          · rcases hp : position (fun t => t == c) (sortTiles g.tiles)
              with _ | i
            · exact Or.inl (by simp [Group.wait, hag, hty, hc, hv, hp])
            · exact Or.inr (Or.inr ⟨i, v.val,
                by simp [Group.wait, hag, hty, hc, hv, hp]⟩)
      · exact Or.inr (Or.inl (wait_of_nonseq g t hag hty hts))

/-- C1: evaluation of the full `Tile::all()` traversal at its one input.
The claim says it yields the 34 distinct tile kinds in canonical order;
the code instead steps from Souzu 9 directly to Pinzu 9, so the traversal
yields only 26 tiles and never yields Pinzu 1 (nor Pinzu 2 through 8),
even though Pinzu 9 does appear. -/
theorem tile_all_skips_pinzu :
    Tile.all.length = 26 ∧
    Tile.Suited .Pinzu ⟨1⟩ ∉ Tile.all ∧
    Tile.Suited .Pinzu ⟨9⟩ ∈ Tile.all ∧
    Tile.all.Nodup := by
  decide

/-- C2: evaluation of `Group::is_open` at a group with a claimed tile and
at one without.  The claim (and the function's own doc comment) says
`is_open()` is true exactly when the claim source `off` is present; the
body instead returns `self.off.is_none()`, the exact opposite. -/
theorem is_open_inverted :
    (Group.mk [.Wind .East, .Wind .East, .Wind .East]
      (some .Right) false false).is_open = false ∧
    (Group.mk [.Wind .East, .Wind .East, .Wind .East]
      none false false).is_open = true := by
  decide

/-- C3 counterexample: the claim says a 7-8-9 sequence won on 7 and a
1-2-3 sequence won on 3 (winning tile last) both classify `Penchan`; at
these explicit inputs the code returns `Ryanmen` and `Kanchan`
respectively, so the claim as stated is false. -/
theorem penchan_examples_counterexample :
    (Group.mk [.Suited .Souzu ⟨8⟩, .Suited .Souzu ⟨9⟩, .Suited .Souzu ⟨7⟩]
      none false true).wait = some (some .Ryanmen) ∧
    (Group.mk [.Suited .Souzu ⟨1⟩, .Suited .Souzu ⟨2⟩, .Suited .Souzu ⟨3⟩]
      none false true).wait = some (some .Kanchan) := by
  decide

/-- C3 amended: for every winning sequence group holding 7-8-9 of one
suit with winning tile 7 placed last, `wait()` returns `Ryanmen`; and for
every winning sequence group holding 1-2-3 of one suit with winning tile
3 placed last, `wait()` returns `Kanchan`. -/
theorem penchan_examples_amended (g : Group) (s : Suit)
    (hag : g.agari = true) :
    ((g.tiles = [.Suited s ⟨8⟩, .Suited s ⟨9⟩, .Suited s ⟨7⟩] ∨
      g.tiles = [.Suited s ⟨9⟩, .Suited s ⟨8⟩, .Suited s ⟨7⟩]) →
        g.wait = some (some .Ryanmen)) ∧
    ((g.tiles = [.Suited s ⟨1⟩, .Suited s ⟨2⟩, .Suited s ⟨3⟩] ∨
      g.tiles = [.Suited s ⟨2⟩, .Suited s ⟨1⟩, .Suited s ⟨3⟩]) →
        g.wait = some (some .Kanchan)) := by
  obtain ⟨ts, off, added, ag⟩ := g
  simp only at hag
  subst hag
  constructor <;> rintro (h | h) <;> simp only at h <;> subst h <;>
    cases s <;> rfl

/-- C3 amended, witness: the amended theorem applied at a Manzu 9-8-7
group won on 7 and a Manzu 2-1-3 group won on 3. -/
theorem penchan_examples_amended_witness :
    (Group.mk [.Suited .Manzu ⟨9⟩, .Suited .Manzu ⟨8⟩, .Suited .Manzu ⟨7⟩]
      none false true).wait = some (some .Ryanmen) ∧
    (Group.mk [.Suited .Manzu ⟨2⟩, .Suited .Manzu ⟨1⟩, .Suited .Manzu ⟨3⟩]
      none false true).wait = some (some .Kanchan) :=
  ⟨(penchan_examples_amended _ .Manzu rfl).1 (Or.inr rfl),
   (penchan_examples_amended _ .Manzu rfl).2 (Or.inr rfl)⟩

/-- C4: for every agari sequence group of three suited tiles (winning
tile structurally last), `wait()` computes exactly the literal spec
table: sort ascending, take the winning tile's 0-based index `pos` and
value `val`; `Kanchan` when `pos == 2`, `Penchan` when
`(pos == 1 ∧ val == 7) ∨ (pos == 3 ∧ val == 3)`, `Ryanmen` otherwise. -/
theorem wait_matches_spec_table (g : Group) (s1 s2 s3 : Suit)
    (v1 v2 v3 : Val) (hag : g.agari = true)
    (ht : g.tiles = [.Suited s1 v1, .Suited s2 v2, .Suited s3 v3])
    (hne : Tile.Suited s1 v1 ≠ .Suited s2 v2) :
    g.wait = some (some (specSeqWait g.tiles (.Suited s3 v3) v3.val)) := by
  have hty : g.ty = some .Sequence := by simp [Group.ty, ht, hne]
  have hc2 : g.tiles[2]? = some (.Suited s3 v3) := by simp [ht]
  have hmem : Tile.Suited s3 v3 ∈ sortTiles g.tiles :=
    mem_sortTiles.mpr (by simp [ht])
  obtain ⟨i, hi⟩ :=
    position_eq_some_of_mem (p := fun t => t == Tile.Suited s3 v3) hmem
      (by simp)
  rw [wait_of_seq g hag hty s3 v3 hc2 i hi]
  simp only [specSeqWait, hi, Option.getD_some]

/-- C4 witness: the theorem applied to the Souzu 4-5-6 run won on 6. -/
theorem wait_matches_spec_table_witness :
    (Group.mk [.Suited .Souzu ⟨4⟩, .Suited .Souzu ⟨5⟩, .Suited .Souzu ⟨6⟩]
        none false true).wait =
      some (some (specSeqWait
        [.Suited .Souzu ⟨4⟩, .Suited .Souzu ⟨5⟩, .Suited .Souzu ⟨6⟩]
        (.Suited .Souzu ⟨6⟩) 6)) :=
  wait_matches_spec_table _ .Souzu .Souzu .Souzu ⟨4⟩ ⟨5⟩ ⟨6⟩ rfl rfl
    (by decide)

/-- C5: `wait()` returns `None` exactly when the group does not carry the
winning tile, and for every agari group whose derived type is `Triplet`
or `Quad` it returns `Some(Shanpon)`. -/
theorem wait_none_iff_not_agari (g : Group) :
    (g.wait = some none ↔ g.has_agari = false) ∧
    (g.has_agari = true → g.ty = some .Triplet ∨ g.ty = some .Quad →
      g.wait = some (some .Shanpon)) := by
  constructor
  · constructor
    · intro h
      rcases wait_cases g with ⟨hag, _⟩ | ⟨_, hcase⟩
      · exact hag
      · exfalso
        rcases hcase with h1 | h1 | ⟨i, v, h1⟩ <;> rw [h] at h1 <;>
          simp at h1
    · intro hag
      exact wait_of_not_agari g hag
  · intro hag hty
    rcases hty with hty | hty
    · exact wait_of_nonseq g .Triplet hag hty (by decide)
    · exact wait_of_nonseq g .Quad hag hty (by decide)

/-- C5 witness: the theorem applied at a non-agari triplet (wait is
`None`) and at an agari triplet (wait is `Some(Shanpon)`). -/
theorem wait_none_iff_not_agari_witness :
    (Group.mk [.Wind .East, .Wind .East, .Wind .East]
        none false false).wait = some none ∧
    (Group.mk [.Wind .West, .Wind .West, .Wind .West]
        none false true).wait = some (some .Shanpon) :=
  ⟨(wait_none_iff_not_agari _).1.mpr rfl,
   (wait_none_iff_not_agari _).2 rfl (Or.inl rfl)⟩

/-- C6: the Thirteen-Sided Thirteen Orphans decision is true exactly on
`Kokushi` hands whose fourteen tiles contain the winning tile exactly
twice; on a `Kokushi` hand containing the winning tile only once it is
false while the base Thirteen Orphans decision is true. -/
theorem kokushi13_pair_count (h : CompleteHand) (c : WinContext) :
    (yaku.KOKUSHI_13.in_hand h c = true ↔
      ∃ tiles, h = .Kokushi tiles ∧ tiles.val.count c.agari = 2) ∧
    (∀ tiles, h = .Kokushi tiles → tiles.val.count c.agari = 1 →
      yaku.KOKUSHI_13.in_hand h c = false ∧
        yaku.KOKUSHI.in_hand h c = true) := by
  have hbridge : ∀ l : List Tile,
      (l.filter (fun t => t == c.agari)).length = l.count c.agari := by
    intro l
    simp [List.count, List.countP_eq_length_filter]
  cases h with
  | Kokushi tiles =>
    constructor
    · simp only [yaku.KOKUSHI_13, beq_iff_eq, hbridge, CompleteHand.Kokushi.injEq,
        exists_eq_left']
    · intro tiles2 h2 hcount
      obtain rfl : tiles = tiles2 := by injection h2
      constructor
      · simp only [yaku.KOKUSHI_13, hbridge, hcount]
        decide
      · rfl
  | SevenPairs pairs =>
    constructor
    · simp [yaku.KOKUSHI_13]
    · intro tiles2 h2
      cases h2
  | Standard groups pair =>
    constructor
    · simp [yaku.KOKUSHI_13]
    · intro tiles2 h2
      cases h2

/-- C6 witness: the theorem applied at a concrete Kokushi hand holding
the Red Dragon twice; winning on the Red Dragon satisfies the
thirteen-sided decision, winning on Manzu 1 (held once) only satisfies
the base decision. -/
theorem kokushi13_pair_count_witness :
    yaku.KOKUSHI_13.in_hand kokushiExampleHand
        (exampleContext (.Dragon .Red)) = true ∧
    (yaku.KOKUSHI_13.in_hand kokushiExampleHand
        (exampleContext (.Suited .Manzu ⟨1⟩)) = false ∧
      yaku.KOKUSHI.in_hand kokushiExampleHand
        (exampleContext (.Suited .Manzu ⟨1⟩)) = true) :=
  ⟨(kokushi13_pair_count kokushiExampleHand _).1.mpr
      ⟨⟨kokushiExampleTiles, rfl⟩, rfl, by decide⟩,
    (kokushi13_pair_count kokushiExampleHand _).2
      ⟨kokushiExampleTiles, rfl⟩ rfl (by decide)⟩

/-- C7: `indicated_dora` is total and computes the successor: a suited
tile of value `v < 9` maps to value `v + 1` in the same suit, value `9`
maps to value `1` in the same suit, and winds/dragons cycle through all
4 (respectively 3) members, returning to the start after 4
(respectively 3) applications. -/
theorem indicated_dora_spec :
    (∀ (s : Suit) (v : Val), v.val < 9 →
      (Tile.Suited s v).indicated_dora = .Suited s ⟨v.val + 1⟩) ∧
    (∀ s : Suit, (Tile.Suited s ⟨9⟩).indicated_dora = .Suited s ⟨1⟩) ∧
    (∀ w : Direction,
      (Tile.Wind w).indicated_dora.indicated_dora.indicated_dora.indicated_dora
          = .Wind w ∧
      [Tile.Wind w, (Tile.Wind w).indicated_dora,
        (Tile.Wind w).indicated_dora.indicated_dora,
        (Tile.Wind w).indicated_dora.indicated_dora.indicated_dora].Nodup) ∧
    (∀ d : Dragon,
      (Tile.Dragon d).indicated_dora.indicated_dora.indicated_dora
          = .Dragon d ∧
      [Tile.Dragon d, (Tile.Dragon d).indicated_dora,
        (Tile.Dragon d).indicated_dora.indicated_dora].Nodup) := by
  refine ⟨?_, ?_, ?_, ?_⟩
  · intro s v hv
    obtain ⟨n⟩ := v
    simp only [Val.val] at hv
    interval_cases n <;> rfl
  · intro s
    rfl
  · intro w
    cases w <;> exact ⟨rfl, by decide⟩
  · intro d
    cases d <;> exact ⟨rfl, by decide⟩

/-- C7 witness: the theorem applied at Manzu 3, Pinzu 9, the East wind
and the White dragon. -/
theorem indicated_dora_spec_witness :
    (Tile.Suited .Manzu ⟨3⟩).indicated_dora = .Suited .Manzu ⟨4⟩ ∧
    (Tile.Suited .Pinzu ⟨9⟩).indicated_dora = .Suited .Pinzu ⟨1⟩ ∧
    (Tile.Wind .East).indicated_dora.indicated_dora.indicated_dora.indicated_dora
        = .Wind .East ∧
    (Tile.Dragon .White).indicated_dora.indicated_dora.indicated_dora
        = .Dragon .White :=
  ⟨indicated_dora_spec.1 .Manzu ⟨3⟩ (by decide),
   indicated_dora_spec.2.1 .Pinzu,
   (indicated_dora_spec.2.2.1 .East).1,
   (indicated_dora_spec.2.2.2 .White).1⟩

/-- C8: over the `u8` domain, `Val::new(n)` succeeds with `val() = n`
for `1 ≤ n ≤ 9` and fails fast (modelled `none`) for every other `n`,
producing no value at all. -/
theorem val_new_roundtrip (n : Nat) (_hu : n < 256) :
    (1 ≤ n ∧ n ≤ 9 → ∃ x, Val.new n = some x ∧ x.val = n) ∧
    (¬(1 ≤ n ∧ n ≤ 9) → Val.new n = none) := by
  constructor
  · intro hin
    exact ⟨⟨n⟩, by simp [Val.new, hin], rfl⟩
  · intro hout
    simp [Val.new, hout]

/-- C8 witness: the theorem applied at `n = 5` (in range) and `n = 0`
(out of range). -/
theorem val_new_roundtrip_witness :
    (∃ x, Val.new 5 = some x ∧ x.val = 5) ∧ Val.new 0 = none :=
  ⟨(val_new_roundtrip 5 (by decide)).1 (by decide),
   (val_new_roundtrip 0 (by decide)).2 (by decide)⟩

/-- C9: on a well-formed group (three or four tiles; a three-tile agari
group whose first two tiles differ is a suited run), `ty()` and `wait()`
never panic: in the model, neither returns the `none` that stands for a
panic. -/
theorem ty_wait_no_panic (g : Group) (h : g.wf) :
    (g.ty).isSome = true ∧ (g.wait).isSome = true := by
  obtain ⟨hlen, hrun⟩ := h
  rcases hlen with hlen | hlen
  · obtain ⟨a, b, c, htl⟩ := List.length_eq_three.mp hlen
    have hty : g.ty = some (if a = b then .Triplet else .Sequence) := by
      simp [Group.ty, htl]
    refine ⟨by simp [hty], ?_⟩
    cases hag : g.agari with
    | false => simp [wait_of_not_agari g hag]
    | true =>
      by_cases hab : a = b
      · have := wait_of_nonseq g .Triplet hag (by simp [hty, hab])
          (by decide)
        simp [this]
      · obtain ⟨s, w1, w2, w3, hsort, _, _⟩ := hrun a b c hag htl hab
        have hcmem : c ∈ sortTiles g.tiles :=
          mem_sortTiles.mpr (by simp [htl])
        rw [hsort] at hcmem
        have hsuited : ∃ sv vv, c = Tile.Suited sv vv := by
          rcases List.mem_cons.mp hcmem with h1 | h1
          · exact ⟨s, w1, h1⟩
          rcases List.mem_cons.mp h1 with h2 | h2
          · exact ⟨s, w2, h2⟩
          rcases List.mem_cons.mp h2 with h3 | h3
          · exact ⟨s, w3, h3⟩
          · cases h3
        obtain ⟨sv, vv, rfl⟩ := hsuited
        have hc2 : g.tiles[2]? = some (.Suited sv vv) := by simp [htl]
        have hmem2 : Tile.Suited sv vv ∈ sortTiles g.tiles :=
          mem_sortTiles.mpr (by simp [htl])
        obtain ⟨i, hi⟩ :=
          position_eq_some_of_mem (p := fun t => t == Tile.Suited sv vv)
            hmem2 (by simp)
        have := wait_of_seq g hag (by simp [hty, hab]) sv vv hc2 i hi
        simp [this]
  · have hty : g.ty = some .Quad := by simp [Group.ty, hlen]
    refine ⟨by simp [hty], ?_⟩
    cases hag : g.agari with
    | false => simp [wait_of_not_agari g hag]
    | true =>
      have := wait_of_nonseq g .Quad hag hty (by decide)
      simp [this]

/-- C9 witness: the theorem applied at the well-formed Souzu 4-6-5 agari
run, whose well-formedness is discharged explicitly. -/
theorem ty_wait_no_panic_witness :
    ((Group.mk [.Suited .Souzu ⟨4⟩, .Suited .Souzu ⟨6⟩, .Suited .Souzu ⟨5⟩]
        none false true).ty).isSome = true ∧
    ((Group.mk [.Suited .Souzu ⟨4⟩, .Suited .Souzu ⟨6⟩, .Suited .Souzu ⟨5⟩]
        none false true).wait).isSome = true :=
  ty_wait_no_panic _
    ⟨Or.inl rfl, fun _ _ _ _ _ _ => ⟨.Souzu, ⟨4⟩, ⟨5⟩, ⟨6⟩, rfl, rfl, rfl⟩⟩

/-- C10: `wait()` never produces `Tanki`: whenever it returns a wait
shape at all, that shape is `Shanpon`, `Kanchan`, `Penchan` or
`Ryanmen`. -/
theorem wait_never_tanki (g : Group) (w : Wait)
    (h : g.wait = some (some w)) :
    w = .Shanpon ∨ w = .Kanchan ∨ w = .Penchan ∨ w = .Ryanmen := by
  rcases wait_cases g with ⟨_, hw⟩ | ⟨_, hcase⟩
  · rw [h] at hw
    simp at hw
  · rcases hcase with h1 | h1 | ⟨i, v, h1⟩ <;> rw [h] at h1
    · simp at h1
    · simp only [Option.some.injEq] at h1
      exact Or.inl h1
    · simp only [Option.some.injEq] at h1
      subst h1
      by_cases h2 : i = 2
      · simp [h2]
      · by_cases h3 : (i = 1 ∧ v = 7) ∨ (i = 3 ∧ v = 3)
        · simp [h2, h3]
        · simp [h2, h3]

/-- C10 witness: the theorem applied at an agari triplet, whose wait is
`Shanpon`. -/
theorem wait_never_tanki_witness :
    Wait.Shanpon = .Shanpon ∨ Wait.Shanpon = .Kanchan ∨
      Wait.Shanpon = .Penchan ∨ Wait.Shanpon = .Ryanmen :=
  wait_never_tanki
    (Group.mk [.Wind .East, .Wind .East, .Wind .East] none false true)
    .Shanpon rfl

end Mjkit
